import Mathlib

/-!
Verification of the MotivSphere firmware streaming engine.

The development shallowly embeds the firmware's streaming I/O code:

* the WAV container writer of Speech_2_text.ino
  (writeWavHeader / finalizeWavHeader / recordAudio), and
* the playback / bitmap / scheduler code of the dual-TFT sketch
  (playSong / displayBMP / loop).

Files are byte lists (each byte a Nat below 256) with an explicit cursor.
Machine integers are modelled as Nat or Int with explicit reductions
modulo 2 ^ 32 (or 2 ^ 16, 256) exactly where the C types truncate.
-/

/-- WFile models an SD file opened for writing: its byte content plus the
current write cursor.  A write overwrites in place and extends at the end,
as the Arduino File API does. -/
structure WFile where
  data : List Nat
  pos : Nat
deriving DecidableEq

/-- fwrite models File.write(buf, len): bytes [pos, pos+len) are replaced
and the cursor advances. -/
def fwrite (f : WFile) (bs : List Nat) : WFile :=
  ⟨f.data.take f.pos ++ bs ++ f.data.drop (f.pos + bs.length), f.pos + bs.length⟩

/-- fseek models File.seek(p) on a write file. -/
def fseek (f : WFile) (p : Nat) : WFile :=
  ⟨f.data, p⟩

/-- le4 is the 4-byte little-endian encoding pattern used throughout
writeWavHeader and finalizeWavHeader:
[v & 0xFF, (v >> 8) & 0xFF, (v >> 16) & 0xFF, (v >> 24) & 0xFF]. -/
def le4 (v : Nat) : List Nat :=
  [v &&& 0xFF, (v >>> 8) &&& 0xFF, (v >>> 16) &&& 0xFF, (v >>> 24) &&& 0xFF]

/-- leDec decodes a little-endian byte list back into a number (base 256);
used only to state what the patched size fields hold. -/
def leDec (l : List Nat) : Nat :=
  l.foldr (fun b acc => b + 256 * acc) 0

/-- writeWavHeader(file, sampleRate, bitsPerSample, channels) from
Speech_2_text.ino: ten sequential File.write calls totalling 44 bytes.
byteRate is uint32 arithmetic, hence the reduction modulo 2 ^ 32; the
(uint8_t) casts are the reductions modulo 256. -/
def writeWavHeader (f : WFile) (sampleRate bitsPerSample channels : Nat) : WFile :=
  List.foldl fwrite f
    [[0x52, 0x49, 0x46, 0x46],                                   -- "RIFF"
     [0, 0, 0, 0],                                               -- RIFF size placeholder
     [0x57, 0x41, 0x56, 0x45],                                   -- "WAVE"
     [0x66, 0x6D, 0x74, 0x20],                                   -- "fmt "
     [16, 0, 0, 0, 1, 0, channels % 256, 0],                     -- fmt_chunk
     le4 sampleRate,                                             -- sample_rate_chunk
     le4 (sampleRate * channels * bitsPerSample % 2 ^ 32 / 8),   -- byte_rate_chunk
     [channels * bitsPerSample / 8 % 256, 0, bitsPerSample % 256, 0], -- block_align_chunk
     [0x64, 0x61, 0x74, 0x61],                                   -- "data"
     [0, 0, 0, 0]]                                               -- data size placeholder

/-- finalizeWavHeader(file) from Speech_2_text.ino: read the file size,
seek to offset 4 and write fileSize - 8 little-endian, seek to offset 40
and write fileSize - 44 little-endian.  fileSize is uint32, so the size
and the two subtractions are reduced modulo 2 ^ 32 (wrapping). -/
def finalizeWavHeader (f : WFile) : WFile :=
  let fileSize := f.data.length % 2 ^ 32
  let f1 := fwrite (fseek f 4) (le4 ((fileSize + 2 ^ 32 - 8) % 2 ^ 32))
  fwrite (fseek f1 40) (le4 ((fileSize + 2 ^ 32 - 44) % 2 ^ 32))

/-- SAMPLE_RATE from Speech_2_text.ino. -/
def SAMPLE_RATE : Nat := 16000

/-- recordLoop models the while loop of recordAudio: reads is the sequence
of byte counts the successive i2s_read calls deliver (each at most the
1024-byte buffer), acc is samplesRecorded, total is totalSamples.  Each
iteration adds bytesRead / (SAMPLE_BITS / 8) = bytesRead / 2 samples.
If the modelled read sequence runs out before the loop finishes, the
result is none (the real loop would block for more data). -/
def recordLoop (reads : List Nat) (acc total : Nat) : Option Nat :=
  if total ≤ acc then some acc
  else
    match reads with
    | [] => none
    | r :: rs => recordLoop rs (acc + r / 2) total

/-- recordAudio(durationSec) from Speech_2_text.ino, parameterised by the
sequence of i2s_read byte counts; returns the final samplesRecorded. -/
def recordAudio (durationSec : Nat) (reads : List Nat) : Option Nat :=
  recordLoop reads 0 (SAMPLE_RATE * durationSec)

/-- BUFFER_SIZE from the dual-TFT sketch. -/
def BUFFER_SIZE : Nat := 4096

/-- playChunks models the while (audioFile.available()) loop of playSong:
each iteration reads up to BUFFER_SIZE bytes, drops a trailing odd byte
(bytesRead--), and hands exactly the trimmed chunk to i2s_write, which
with portMAX_DELAY consumes it entirely.  The result is the list of
transmitted chunks; rest is the unread tail of the file. -/
def playChunks (rest : List Nat) : List (List Nat) :=
  if h : rest.isEmpty then []
  else
    let chunk := rest.take BUFFER_SIZE
    let n := chunk.length
    chunk.take (n - n % 2) :: playChunks (rest.drop BUFFER_SIZE)
termination_by rest.length
decreasing_by
  simp only [List.length_drop]
  have hne : rest ≠ [] := by simpa [List.isEmpty_iff] using h
  have hp : 0 < rest.length := List.length_pos.mpr hne
  simp only [BUFFER_SIZE]
  omega

/-- playSong(filename) from the dual-TFT sketch over a modelled SD card
(a partial map from path to content).  A missing or unopenable file is a
silent no-op: nothing transmitted, nothing opened or closed.  Otherwise
the whole file is streamed once and the file is closed (flag true). -/
def playSong (fs : String → Option (List Nat)) (filename : String) :
    List (List Nat) × Bool :=
  match fs filename with
  | none => ([], false)
  | some d => (playChunks d, true)

/-- RFile models an SD file opened for reading: byte content plus cursor. -/
structure RFile where
  data : List Nat
  pos : Nat
deriving DecidableEq

/-- readByte models Arduino File.read(): the byte at the cursor as an int,
or -1 past the end of the stream. -/
def readByte (f : RFile) : Int × RFile :=
  if h : f.pos < f.data.length then
    ((f.data.get ⟨f.pos, h⟩ : Nat), ⟨f.data, f.pos + 1⟩)
  else (-1, f)

/-- read16 from the dual-TFT sketch: f.read() | (f.read() << 8), with the
int result converted to uint16_t (reduction modulo 2 ^ 16). -/
def read16 (f : RFile) : Nat × RFile :=
  let p1 := readByte f
  let p2 := readByte p1.2
  (((Int.lor p1.1 (p2.1 <<< (8 : Int))) % 65536).toNat, p2.2)

/-- read32 from the dual-TFT sketch: four reads ored together, with the
int result converted to uint32_t (reduction modulo 2 ^ 32). -/
def read32 (f : RFile) : Nat × RFile :=
  let p1 := readByte f
  let p2 := readByte p1.2
  let p3 := readByte p2.2
  let p4 := readByte p3.2
  (((Int.lor (Int.lor (Int.lor p1.1 (p2.1 <<< (8 : Int))) (p3.1 <<< (16 : Int)))
      (p4.1 <<< (24 : Int))) % 2 ^ 32).toNat, p4.2)

/-- freadN models File.read(buf, n): up to n bytes from the cursor, with
the actual transferred prefix returned. -/
def freadN (f : RFile) (n : Nat) : List Nat × RFile :=
  let bs := (f.data.drop f.pos).take n
  (bs, ⟨f.data, f.pos + bs.length⟩)

/-- color565 is Adafruit's RGB-to-5-6-5 packing used by displayBMP:
((r & 0xF8) << 8) | ((g & 0xFC) << 3) | (b >> 3). -/
def color565 (r g b : Nat) : Nat :=
  ((r &&& 0xF8) <<< 8) ||| ((g &&& 0xFC) <<< 3) ||| (b >>> 3)

/-- toInt32 reinterprets a uint32 value as the int32_t the sketch stores
bmpWidth and bmpHeight into. -/
def toInt32 (u : Nat) : Int :=
  if u < 2 ^ 31 then (u : Int) else (u : Int) - 2 ^ 32

/-- rowSizeOf is the stride computation of displayBMP,
uint32_t rowSize = (bmpWidth * 3 + 3) & ~3, with the int32 expression
truncated to uint32 (bit-and commutes with the truncation, so the mask
~3 becomes 0xFFFFFFFC on the truncated value). -/
def rowSizeOf (bmpWidth : Int) : Nat :=
  ((bmpWidth * 3 + 3) % 2 ^ 32).toNat &&& 0xFFFFFFFC

/-- colAux models the inner column loop of displayBMP for one destination
row: colsDone columns already drawn, colsLeft to go.  The 60-byte cache
sdbuffer is refilled from the stream only when buffidx reaches its size;
bytes of the cache beyond a short refill keep their previous content,
exactly as the C array does (the code ignores the read count). -/
def colAux (x y row : Nat) :
    Nat → Nat → RFile → List Nat → Nat →
    (List (Nat × Nat × Nat) × RFile × List Nat × Nat)
  | _, 0, f, buf, idx => ([], f, buf, idx)
  | colsDone, colsLeft + 1, f, buf, idx =>
    let st :=
      if 60 ≤ idx then
        let r := freadN f 60
        (r.2, r.1 ++ buf.drop r.1.length, 0)
      else (f, buf, idx)
    let b := st.2.1.getD st.2.2 0
    let g := st.2.1.getD (st.2.2 + 1) 0
    let r := st.2.1.getD (st.2.2 + 2) 0
    let rest := colAux x y row (colsDone + 1) colsLeft st.1 st.2.1 (st.2.2 + 3)
    ((x + colsDone, y + row, color565 r g b) :: rest.1, rest.2)

/-- rowAux models the outer row loop of displayBMP: for each destination
row the source position is offset + (flip ? height-1-row : row) * rowSize
(uint32 arithmetic); the file seeks there only if the cursor differs.
The cache index is NOT reset after a seek -- faithfully to the code. -/
def rowAux (x y offset rowSize : Nat) (flip : Bool) (H W : Nat) :
    Nat → Nat → RFile → List Nat → Nat →
    (List (Nat × Nat × Nat) × RFile × List Nat × Nat)
  | _, 0, f, buf, idx => ([], f, buf, idx)
  | rowsDone, rowsLeft + 1, f, buf, idx =>
    let pos := (offset + (if flip then H - 1 - rowsDone else rowsDone) * rowSize) % 2 ^ 32
    let f1 := if f.pos ≠ pos then (⟨f.data, pos⟩ : RFile) else f
    let c := colAux x y rowsDone 0 W f1 buf idx
    let rest := rowAux x y offset rowSize flip H W (rowsDone + 1) rowsLeft c.2.1 c.2.2.1 c.2.2.2
    (c.1 ++ rest.1, rest.2)

/-- BMPResult is the observable outcome of one displayBMP call: the
pixels pushed to the render sink ((x, y, color565) in emission order),
whether File.close() was reached, and the cursor at return time (none
when the open itself failed). -/
structure BMPResult where
  drawn : List (Nat × Nat × Nat)
  closed : Bool
  endPos : Option Nat
deriving DecidableEq

/-- displayBMPDecode is the pixel-streaming tail of displayBMP, entered
once the header checks have passed: compute the stride and the flip flag,
set the address window (which emits no pixel), run the row loop from the
pixel-data offset, and close the file (flag true). -/
def displayBMPDecode (off wU hU : Nat) (f : RFile) (x y : Nat) : BMPResult :=
  let bmpWidth : Int := toInt32 wU
  let bmpHeight : Int := toInt32 hU
  let rowSize := rowSizeOf bmpWidth
  let flip := bmpHeight > 0
  let res := rowAux x y off rowSize flip bmpHeight.natAbs bmpWidth.toNat
    0 bmpHeight.natAbs f (List.replicate 60 0) 60
  ⟨res.1, true, some res.2.1.pos⟩

/-- displayBMPHeader is the header-parsing phase of displayBMP after the
magic check: the remaining file-header reads, the info-header reads, and
the early returns for bits-per-pixel other than 24 or a nonzero
compression (the || in the source short-circuits: compression is read
only when bits-per-pixel equalled 24). -/
def displayBMPHeader (f : RFile) (x y : Nat) : BMPResult :=
  let s1 := read32 f              -- file size field, discarded
  let s2 := read32 s1.2           -- reserved words, discarded
  let off := read32 s2.2          -- bmpImageOffset
  let s3 := read32 off.2          -- DIB header size, discarded
  let wR := read32 s3.2           -- bmpWidth
  let hR := read32 wR.2           -- bmpHeight
  let s4 := read16 hR.2           -- planes, discarded
  let bppR := read16 s4.2
  if bppR.1 ≠ 24 then ⟨[], false, some bppR.2.pos⟩
  else
    let compR := read32 bppR.2
    if compR.1 ≠ 0 then ⟨[], false, some compR.2.pos⟩
    else displayBMPDecode off.1 wR.1 hR.1 compR.2 x y

/-- displayBMP(filename, display, x, y) from the dual-TFT sketch over the
opened file's content (none when SD.open failed).  The early returns for
a failed open, a bad magic, a bits-per-pixel other than 24 and a nonzero
compression reach no close() call; only the full decode path does. -/
def displayBMP (content : Option (List Nat)) (x y : Nat) : BMPResult :=
  match content with
  | none => ⟨[], false, none⟩
  | some d =>
    let m := read16 ⟨d, 0⟩
    if m.1 ≠ 0x4D42 then ⟨[], false, some m.2.pos⟩
    else displayBMPHeader m.2 x y

/-- fieldU16 reads the little-endian 16-bit header field stored at byte
offset p of a bitmap file; used to state header properties. -/
def fieldU16 (d : List Nat) (p : Nat) : Nat :=
  d.getD p 0 + 256 * d.getD (p + 1) 0

/-- fieldU32 reads the little-endian 32-bit header field stored at byte
offset p of a bitmap file; used to state header properties. -/
def fieldU32 (d : List Nat) (p : Nat) : Nat :=
  d.getD p 0 + 256 * d.getD (p + 1) 0 + 65536 * d.getD (p + 2) 0 +
    16777216 * d.getD (p + 3) 0

/-- totalSongs from the dual-TFT sketch. -/
def totalSongs : Int := 5

/-- totalImages from the dual-TFT sketch. -/
def totalImages : Nat := 4

/-- DEBOUNCE_DELAY from the dual-TFT sketch, in milliseconds. -/
def DEBOUNCE_DELAY : Nat := 50

/-- usub32 is unsigned-long (uint32) subtraction a - b as the sketch's
millis() comparisons compute it, wrapping modulo 2 ^ 32. -/
def usub32 (a b : Nat) : Nat :=
  (a % 2 ^ 32 + (2 ^ 32 - b % 2 ^ 32)) % 2 ^ 32

/-- SchedState gathers the free-floating globals the loop() function
mutates: the two periodic-gate timestamps, the slideshow cursor
(uint8_t currentImage), the playlist cursor (int currentSong) and the
debounce timestamp. -/
structure SchedState where
  previousMillis : Nat
  previousImageMillis : Nat
  currentImage : Nat
  currentSong : Int
  lastButtonPressTime : Nat
deriving DecidableEq

/-- initialState holds the sketch's global initialisers: currentSong = 0,
lastButtonPressTime = 0, currentImage = 1, previousImageMillis = 0,
previousMillis = 0. -/
def initialState : SchedState :=
  ⟨0, 0, 1, 0, 0⟩

/-- loopStep is one iteration of loop(): the 1-second clock gate, the
5-second slideshow gate (currentImage = currentImage % totalImages + 1),
the blocking playSong pass (which touches none of these globals), and the
button sampling.  currentMillis is the millis() read at the top,
buttonLow the digitalRead(PREV_BUTTON_PIN) == LOW sample, t2 the second
millis() read inside the button branch.  The C expression
(currentSong - 1 + totalSongs) % totalSongs is int arithmetic with C's
truncating %, i.e. Int.tmod. -/
def loopStep (s : SchedState) (currentMillis : Nat) (buttonLow : Bool) (t2 : Nat) :
    SchedState :=
  let s1 := if usub32 currentMillis s.previousMillis ≥ 1000 then
      { s with previousMillis := currentMillis } else s
  let s2 := if usub32 currentMillis s1.previousImageMillis ≥ 5000 then
      { s1 with previousImageMillis := currentMillis,
                currentImage := s1.currentImage % totalImages + 1 } else s1
  if buttonLow then
    if usub32 t2 s2.lastButtonPressTime > DEBOUNCE_DELAY then
      { s2 with lastButtonPressTime := t2,
                currentSong := Int.tmod (s2.currentSong - 1 + totalSongs) totalSongs }
    else s2
  else
    { s2 with currentSong := Int.tmod (s2.currentSong + 1) totalSongs }

/-- SchedInv is the cursor range invariant: the playlist cursor indexes
songList (0 ≤ currentSong < totalSongs = 5) and the slideshow cursor
indexes the enumerated images (1 ≤ currentImage ≤ totalImages = 4). -/
def SchedInv (s : SchedState) : Prop :=
  0 ≤ s.currentSong ∧ s.currentSong < 5 ∧ 1 ≤ s.currentImage ∧ s.currentImage ≤ 4

/-- bmp4x4 is a concrete well-formed 102-byte bottom-up 4 x 4 24-bit
uncompressed bitmap: pixel data at offset 54, stride 12, and every byte
of source row i (0 = bottom row in the file ordering used here: rows are
stored bottom-up, so file row 0 is image row 3) equal to 10 * (i + 1). -/
def bmp4x4 : List Nat :=
  [0x42, 0x4D,               -- "BM"
   102, 0, 0, 0,             -- file size
   0, 0, 0, 0,               -- reserved
   54, 0, 0, 0,              -- pixel data offset
   40, 0, 0, 0,              -- DIB header size
   4, 0, 0, 0,               -- width = 4
   4, 0, 0, 0,               -- height = +4 (bottom-up)
   1, 0,                     -- planes
   24, 0,                    -- bits per pixel
   0, 0, 0, 0] ++            -- compression = 0
  List.replicate 20 0 ++     -- rest of the 40-byte DIB header
  List.replicate 12 10 ++    -- stored row 0 (image row 3)
  List.replicate 12 20 ++    -- stored row 1 (image row 2)
  List.replicate 12 30 ++    -- stored row 2 (image row 1)
  List.replicate 12 40       -- stored row 3 (image row 0)

/-- demoFS is a one-file SD card used to witness the playSong theorems. -/
def demoFS : String → Option (List Nat) :=
  fun name => if name = "/songs/song1.wav" then some [1, 2, 3] else none

theorem land_two_pow_sub_one (x k : Nat) : x &&& (2 ^ k - 1) = x % 2 ^ k := by
  apply Nat.eq_of_testBit_eq
  intro i
  rw [Nat.testBit_land, Nat.testBit_two_pow_sub_one, Nat.testBit_mod_two_pow,
    Bool.and_comm]

theorem lor_two_pow_add (k a b : Nat) (h : a < 2 ^ k) :
    a ||| 2 ^ k * b = a + 2 ^ k * b := by
  apply Nat.eq_of_testBit_eq
  intro i
  rw [Nat.testBit_lor, Nat.testBit_to_div_mod, Nat.testBit_to_div_mod,
    Nat.testBit_to_div_mod]
  by_cases hik : i < k
  · have hsplit : (2 : Nat) ^ k * b = 2 ^ i * (2 ^ (k - i - 1) * b * 2) := by
      have he : i + ((k - i - 1) + 1) = k := by omega
      calc (2 : Nat) ^ k * b = 2 ^ (i + ((k - i - 1) + 1)) * b := by rw [he]
        _ = 2 ^ i * (2 ^ (k - i - 1) * b * 2) := by
            rw [pow_add, pow_add, pow_one]; ring
    have hd : (2 : Nat) ^ k * b / 2 ^ i = 2 ^ (k - i - 1) * b * 2 := by
      rw [hsplit, Nat.mul_div_cancel_left _ (pow_pos (by norm_num) i)]
    have hd2 : (a + 2 ^ k * b) / 2 ^ i = a / 2 ^ i + 2 ^ (k - i - 1) * b * 2 := by
      rw [hsplit, Nat.add_mul_div_left _ _ (pow_pos (by norm_num) i)]
    rw [hd, hd2]
    simp [Nat.mul_mod_left, Nat.add_mul_mod_self_right]
  · have hik2 : k ≤ i := by omega
    have ha : a / 2 ^ i = 0 :=
      Nat.div_eq_of_lt (lt_of_lt_of_le h (Nat.pow_le_pow_right (by norm_num) hik2))
    have key : (a + 2 ^ k * b) / 2 ^ i = 2 ^ k * b / 2 ^ i := by
      have h2 : (2 : Nat) ^ i = 2 ^ k * 2 ^ (i - k) := by
        rw [← pow_add]; congr 1; omega
      rw [h2, ← Nat.div_div_eq_div_mul, ← Nat.div_div_eq_div_mul]
      congr 1
      rw [mul_comm ((2 : Nat) ^ k) b, Nat.add_mul_div_right _ _ (pow_pos (by norm_num) k),
        Nat.div_eq_of_lt h, Nat.mul_div_cancel _ (pow_pos (by norm_num) k)]
      omega
    rw [ha, key]
    simp

theorem land_mask32 (x : Nat) (hx : x < 2 ^ 32) :
    x &&& 0xFFFFFFFC = 2 ^ 2 * (x / 2 ^ 2) := by
  have hmask : (0xFFFFFFFC : Nat) = (2 ^ 30 - 1) <<< 2 := by
    norm_num [Nat.shiftLeft_eq]
  have hms : 2 ^ 2 * (x / 2 ^ 2) = (x / 2 ^ 2) <<< 2 := by
    rw [Nat.shiftLeft_eq]; ring
  rw [hmask, hms]
  apply Nat.eq_of_testBit_eq
  intro i
  rw [Nat.testBit_land, Nat.testBit_shiftLeft, Nat.testBit_shiftLeft,
    Nat.testBit_two_pow_sub_one]
  by_cases h2 : 2 ≤ i
  · simp only [ge_iff_le, h2, decide_True, Bool.true_and]
    by_cases h32 : i < 32
    · have h30 : i - 2 < 30 := by omega
      simp only [h30, decide_True, Bool.and_true]
      rw [Nat.testBit_to_div_mod, Nat.testBit_to_div_mod,
        Nat.div_div_eq_div_mul, ← pow_add]
      have he : 2 + (i - 2) = i := by omega
      rw [he]
    · have hb : x.testBit i = false :=
        Nat.testBit_lt_two_pow
          (lt_of_lt_of_le hx (Nat.pow_le_pow_right (by norm_num) (by omega)))
      have hq : x / 2 ^ 2 < 2 ^ 30 := by
        have : (2 : Nat) ^ 2 = 4 := by norm_num
        omega
      have hb2 : (x / 2 ^ 2).testBit (i - 2) = false :=
        Nat.testBit_lt_two_pow
          (lt_of_lt_of_le hq (Nat.pow_le_pow_right (by norm_num) (by omega)))
      have h4 : x / 2 ^ 2 = x / 4 := by norm_num
      rw [h4] at hb2
      simp [hb, hb2, show ¬(i - 2 < 30) by omega]
  · simp [show ¬(2 ≤ i) from h2]

theorem leDec_le4 (v : Nat) (hv : v < 2 ^ 32) : leDec (le4 v) = v := by
  have h8 : (0xFF : Nat) = 2 ^ 8 - 1 := by norm_num
  simp only [le4, leDec, List.foldr, h8, land_two_pow_sub_one,
    Nat.shiftRight_eq_div_pow]
  omega

theorem fwrite_append (f : WFile) (bs : List Nat) (h : f.pos = f.data.length) :
    fwrite f bs = ⟨f.data ++ bs, f.data.length + bs.length⟩ := by
  unfold fwrite
  rw [h, List.take_length, List.drop_eq_nil_of_le (Nat.le_add_right _ _),
    List.append_nil]

theorem foldl_fwrite_append (ps : List (List Nat)) :
    ∀ f : WFile, f.pos = f.data.length →
      (ps.foldl fwrite f).data = f.data ++ ps.flatten ∧
      (ps.foldl fwrite f).pos = (ps.foldl fwrite f).data.length := by
  induction ps with
  | nil =>
    intro f h
    constructor
    · simp
    · simpa using h
  | cons p ps ih =>
    intro f h
    rw [List.foldl_cons, fwrite_append f p h]
    have h2 : (⟨f.data ++ p, f.data.length + p.length⟩ : WFile).pos =
        (⟨f.data ++ p, f.data.length + p.length⟩ : WFile).data.length := by
      simp
    obtain ⟨ha, hb⟩ := ih _ h2
    refine ⟨?_, hb⟩
    rw [ha]
    simp

theorem writeWavHeader_spec (r b c : Nat) :
    (writeWavHeader ⟨[], 0⟩ r b c).data.length = 44 ∧
    (writeWavHeader ⟨[], 0⟩ r b c).pos = (writeWavHeader ⟨[], 0⟩ r b c).data.length := by
  unfold writeWavHeader
  obtain ⟨ha, hb⟩ := foldl_fwrite_append _ ⟨[], 0⟩ rfl
  refine ⟨?_, hb⟩
  rw [ha]
  simp [le4]

theorem extract_mid (A B C : List Nat) (p k : Nat) (hA : A.length = p)
    (hB : B.length = k) : ((A ++ B ++ C).drop p).take k = B := by
  rw [List.append_assoc, List.drop_left' hA, List.take_left' hB]

theorem take_drop_front (A X : List Nat) (p k : Nat) (h : p + k ≤ A.length) :
    ((A ++ X).drop p).take k = (A.drop p).take k := by
  rw [List.drop_append_eq_append_drop, List.take_append_eq_append_take]
  have h1 : p - A.length = 0 := by omega
  have h2 : k - (A.drop p).length = 0 := by
    rw [List.length_drop]; omega
  rw [h1, h2]
  simp

/-- C1: WAV finalization round-trip.  For every sample rate, bit depth and
channel count, and every sequence of payload writes totalling n bytes
after writeWavHeader on a fresh file, finalizeWavHeader leaves a file of
total length 44 + n whose 4 bytes at offset 4 decode (little-endian) to
totalLength - 8 and whose 4 bytes at offset 40 decode to totalLength - 44. -/
theorem wav_finalize_roundtrip (r b c : Nat) (ps : List (List Nat))
    (hsz : 44 + (ps.map List.length).sum < 2 ^ 32) :
    (finalizeWavHeader (ps.foldl fwrite (writeWavHeader ⟨[], 0⟩ r b c))).data.length
        = 44 + (ps.map List.length).sum ∧
    leDec (((finalizeWavHeader (ps.foldl fwrite (writeWavHeader ⟨[], 0⟩ r b c))).data.drop 4).take 4)
        = 44 + (ps.map List.length).sum - 8 ∧
    leDec (((finalizeWavHeader (ps.foldl fwrite (writeWavHeader ⟨[], 0⟩ r b c))).data.drop 40).take 4)
        = 44 + (ps.map List.length).sum - 44 := by
  obtain ⟨hh1, hh2⟩ := writeWavHeader_spec r b c
  obtain ⟨hp1, hp2⟩ := foldl_fwrite_append ps _ hh2
  have hFlen : (ps.foldl fwrite (writeWavHeader ⟨[], 0⟩ r b c)).data.length
      = 44 + (ps.map List.length).sum := by
    rw [hp1, List.length_append, hh1, List.length_flatten]
  set n := (ps.map List.length).sum with hn
  set F := ps.foldl fwrite (writeWavHeader ⟨[], 0⟩ r b c) with hF
  have hsize : F.data.length % 2 ^ 32 = 44 + n := by
    rw [hFlen]; exact Nat.mod_eq_of_lt hsz
  have hv1 : (F.data.length % 2 ^ 32 + 2 ^ 32 - 8) % 2 ^ 32 = 36 + n := by
    rw [hsize]
    have : 44 + n + 2 ^ 32 - 8 = (36 + n) + 1 * 2 ^ 32 := by omega
    rw [this, Nat.add_mul_mod_self_right]
    exact Nat.mod_eq_of_lt (by omega)
  have hv2 : (F.data.length % 2 ^ 32 + 2 ^ 32 - 44) % 2 ^ 32 = n := by
    rw [hsize]
    have : 44 + n + 2 ^ 32 - 44 = n + 1 * 2 ^ 32 := by omega
    rw [this, Nat.add_mul_mod_self_right]
    exact Nat.mod_eq_of_lt (by omega)
  have hfin : (finalizeWavHeader F).data =
      (F.data.take 4 ++ le4 (36 + n) ++ F.data.drop 8).take 40 ++ le4 n ++
        (F.data.take 4 ++ le4 (36 + n) ++ F.data.drop 8).drop 44 := by
    simp only [finalizeWavHeader, fwrite, fseek, hv1, hv2, le4, List.length_cons,
      List.length_nil]
  have hd1len : (F.data.take 4 ++ le4 (36 + n) ++ F.data.drop 8).length = 44 + n := by
    simp only [List.length_append, List.length_take, List.length_drop, le4,
      List.length_cons, List.length_nil, hFlen]
    omega
  refine ⟨?_, ?_, ?_⟩
  · rw [hfin]
    simp only [List.length_append, List.length_take, List.length_drop, le4,
      List.length_cons, List.length_nil, hd1len]
    omega
  · rw [hfin]
    rw [List.append_assoc]
    rw [take_drop_front _ _ 4 4 (by rw [List.length_take, hd1len]; omega)]
    rw [List.drop_take, List.take_take]
    have hm : min 4 (40 - 4) = 4 := by norm_num
    rw [hm]
    rw [extract_mid (F.data.take 4) (le4 (36 + n)) (F.data.drop 8) 4 4
      (by rw [List.length_take, hFlen]; omega) (by simp [le4])]
    rw [leDec_le4 _ (by omega)]
    omega
  · rw [hfin]
    rw [extract_mid _ (le4 n) _ 40 4
      (by rw [List.length_take, hd1len]; omega) (by simp [le4])]
    rw [leDec_le4 _ (by omega)]
    omega

/-- C1 witness: a concrete run with the recorder's parameters and a
3-byte payload. -/
theorem wav_finalize_roundtrip_witness :
    44 + ([[1, 2, 3]].map List.length).sum < 2 ^ 32 ∧
    (finalizeWavHeader ([[1, 2, 3]].foldl fwrite (writeWavHeader ⟨[], 0⟩ 16000 16 1))).data.length
        = 44 + ([[1, 2, 3]].map List.length).sum :=
  ⟨by norm_num, (wav_finalize_roundtrip 16000 16 1 [[1, 2, 3]] (by norm_num)).1⟩

/-- C2 counterexample: with durationSec = 1 and i2s_read delivering full
1024-byte (512-sample) chunks, the loop stops at 16384 samples, not at
the exact target SAMPLE_RATE * 1 = 16000 -- the count is rounded up to a
whole chunk, refuting the exactness claim. -/
theorem recordAudio_not_exact :
    recordAudio 1 (List.replicate 32 1024) = some 16384 ∧
    (16384 : Nat) ≠ SAMPLE_RATE * 1 := by
  constructor
  · rfl
  · decide

theorem recordLoop_bounds (reads : List Nat) : ∀ acc total s : Nat,
    (∀ r ∈ reads, r ≤ 1024) → acc < total + 512 →
    recordLoop reads acc total = some s → total ≤ s ∧ s < total + 512 := by
  induction reads with
  | nil =>
    intro acc total s hb ha hr
    rw [recordLoop] at hr
    by_cases h : total ≤ acc
    · rw [if_pos h] at hr
      injection hr with h2
      omega
    · rw [if_neg h] at hr
      cases hr
  | cons r rs ih =>
    intro acc total s hb ha hr
    rw [recordLoop] at hr
    by_cases h : total ≤ acc
    · rw [if_pos h] at hr
      injection hr with h2
      omega
    · rw [if_neg h] at hr
      have hr1024 : r ≤ 1024 := hb r (by simp)
      exact ih (acc + r / 2) total s (fun q hq => hb q (by simp [hq]))
        (by omega) hr

/-- C2 amended: recordAudio(durationSec) stops having accumulated at
least SAMPLE_RATE * durationSec samples but possibly up to one chunk
(512 samples, exclusive) more: the loop counts actual samples received
(bytesRead / 2 per read) but its guard only checks the target before
each read, so the final chunk can overshoot. -/
theorem recordAudio_bounds (durationSec : Nat) (reads : List Nat) (s : Nat)
    (hb : ∀ r ∈ reads, r ≤ 1024)
    (hs : recordAudio durationSec reads = some s) :
    SAMPLE_RATE * durationSec ≤ s ∧ s < SAMPLE_RATE * durationSec + 512 :=
  recordLoop_bounds reads 0 _ s hb (by omega) hs

/-- C2 witness: the bounds hold for the concrete overshooting run. -/
theorem recordAudio_bounds_witness :
    SAMPLE_RATE * 1 ≤ 16384 ∧ 16384 < SAMPLE_RATE * 1 + 512 :=
  recordAudio_bounds 1 (List.replicate 32 1024) 16384 (by decide) (by rfl)

theorem readByte_spec (d : List Nat) (p : Nat) (h : p < d.length) :
    readByte ⟨d, p⟩ = ((d.getD p 0 : Int), (⟨d, p + 1⟩ : RFile)) := by
  simp only [readByte, dif_pos h]
  rw [List.getD_eq_getElem d 0 h]
  rfl

theorem read16_spec (d : List Nat) (p : Nat) (h2 : p + 2 ≤ d.length)
    (hb : ∀ q ∈ d, q < 256) :
    read16 ⟨d, p⟩ = (fieldU16 d p, ⟨d, p + 2⟩) := by
  have h0 : p < d.length := by omega
  have h1 : p + 1 < d.length := by omega
  have hb0 : d.getD p 0 < 256 := by
    rw [List.getD_eq_getElem d 0 h0]; exact hb _ (List.getElem_mem h0)
  have hb1 : d.getD (p + 1) 0 < 256 := by
    rw [List.getD_eq_getElem d 0 h1]; exact hb _ (List.getElem_mem h1)
  simp only [read16, readByte_spec d p h0, readByte_spec d (p + 1) h1]
  have hsh : ((d.getD (p + 1) 0 : Int)) <<< (8 : Int) =
      ((d.getD (p + 1) 0 <<< 8 : Nat) : Int) := rfl
  have hlor : Int.lor (d.getD p 0 : Int) ((d.getD (p + 1) 0 <<< 8 : Nat) : Int) =
      ((d.getD p 0 ||| d.getD (p + 1) 0 <<< 8 : Nat) : Int) := rfl
  rw [hsh, hlor, Nat.shiftLeft_eq, mul_comm (d.getD (p + 1) 0) ((2 : Nat) ^ 8),
    lor_two_pow_add 8 _ _ hb0]
  refine Prod.ext ?_ rfl
  simp only [fieldU16]
  omega

theorem read32_spec (d : List Nat) (p : Nat) (h4 : p + 4 ≤ d.length)
    (hb : ∀ q ∈ d, q < 256) :
    read32 ⟨d, p⟩ = (fieldU32 d p, ⟨d, p + 4⟩) := by
  have h0 : p < d.length := by omega
  have h1 : p + 1 < d.length := by omega
  have h2 : p + 2 < d.length := by omega
  have h3 : p + 3 < d.length := by omega
  have hb0 : d.getD p 0 < 256 := by
    rw [List.getD_eq_getElem d 0 h0]; exact hb _ (List.getElem_mem h0)
  have hb1 : d.getD (p + 1) 0 < 256 := by
    rw [List.getD_eq_getElem d 0 h1]; exact hb _ (List.getElem_mem h1)
  have hb2 : d.getD (p + 2) 0 < 256 := by
    rw [List.getD_eq_getElem d 0 h2]; exact hb _ (List.getElem_mem h2)
  have hb3 : d.getD (p + 3) 0 < 256 := by
    rw [List.getD_eq_getElem d 0 h3]; exact hb _ (List.getElem_mem h3)
  have hp2 : p + 1 + 1 = p + 2 := by omega
  have hp3 : p + 2 + 1 = p + 3 := by omega
  simp only [read32, readByte_spec d p h0, readByte_spec d (p + 1) h1, hp2,
    readByte_spec d (p + 2) h2, hp3, readByte_spec d (p + 3) h3]
  have e1 : Int.lor (d.getD p 0 : Int) ((d.getD (p + 1) 0 : Int) <<< (8 : Int)) =
      ((d.getD p 0 ||| d.getD (p + 1) 0 <<< 8 : Nat) : Int) := rfl
  have e2 : ∀ m : Nat, Int.lor (m : Int) ((d.getD (p + 2) 0 : Int) <<< (16 : Int)) =
      ((m ||| d.getD (p + 2) 0 <<< 16 : Nat) : Int) := fun m => rfl
  have e3 : ∀ m : Nat, Int.lor (m : Int) ((d.getD (p + 3) 0 : Int) <<< (24 : Int)) =
      ((m ||| d.getD (p + 3) 0 <<< 24 : Nat) : Int) := fun m => rfl
  have v1 : d.getD p 0 ||| d.getD (p + 1) 0 <<< 8 =
      d.getD p 0 + 2 ^ 8 * d.getD (p + 1) 0 := by
    rw [Nat.shiftLeft_eq, mul_comm (d.getD (p + 1) 0) ((2 : Nat) ^ 8),
      lor_two_pow_add 8 _ _ hb0]
  have v2 : d.getD p 0 + 2 ^ 8 * d.getD (p + 1) 0 ||| d.getD (p + 2) 0 <<< 16 =
      d.getD p 0 + 2 ^ 8 * d.getD (p + 1) 0 + 2 ^ 16 * d.getD (p + 2) 0 := by
    rw [Nat.shiftLeft_eq, mul_comm (d.getD (p + 2) 0) ((2 : Nat) ^ 16),
      lor_two_pow_add 16 _ _ (by omega)]
  have v3 : d.getD p 0 + 2 ^ 8 * d.getD (p + 1) 0 + 2 ^ 16 * d.getD (p + 2) 0 |||
        d.getD (p + 3) 0 <<< 24 =
      d.getD p 0 + 2 ^ 8 * d.getD (p + 1) 0 + 2 ^ 16 * d.getD (p + 2) 0 +
        2 ^ 24 * d.getD (p + 3) 0 := by
    rw [Nat.shiftLeft_eq, mul_comm (d.getD (p + 3) 0) ((2 : Nat) ^ 24),
      lor_two_pow_add 24 _ _ (by omega)]
  rw [e1, v1, e2, v2, e3, v3]
  refine Prod.ext ?_ rfl
  simp only [fieldU32]
  omega

/-- C3 counterexample: on the 2-byte file [0, 0] (first two bytes not
'B','M') displayBMP returns early with nothing drawn, but the opened file
handle is NOT closed on this exit path -- the code returns before its
only bmpFile.close() call -- refuting the claim that the handle is closed
on the error exit. -/
theorem displayBMP_bad_magic_not_closed :
    (displayBMP (some [0, 0]) 0 0).closed = false ∧
    (displayBMP (some [0, 0]) 0 0).drawn = [] := by
  decide

/-- C3 amended: on any file whose first two bytes are not 'B','M', the
decoder returns after consuming exactly the 2 magic bytes (no further
header field is read), draws nothing (prior screen content remains), but
does not explicitly close the opened file handle on this error path (the
handle is released only when the File object leaves scope). -/
theorem displayBMP_bad_magic_clean (d : List Nat) (x y : Nat)
    (hb : ∀ q ∈ d, q < 256) (h2 : 2 ≤ d.length)
    (hm : d.getD 0 0 ≠ 0x42 ∨ d.getD 1 0 ≠ 0x4D) :
    displayBMP (some d) x y = ⟨[], false, some 2⟩ := by
  have hb0 : d.getD 0 0 < 256 := by
    rw [List.getD_eq_getElem d 0 (by omega : 0 < d.length)]
    exact hb _ (List.getElem_mem _)
  have hb1 : d.getD 1 0 < 256 := by
    rw [List.getD_eq_getElem d 0 (by omega : 1 < d.length)]
    exact hb _ (List.getElem_mem _)
  have he : fieldU16 d 0 = d.getD 0 0 + 256 * d.getD 1 0 := by
    norm_num [fieldU16]
  have hne : fieldU16 d 0 ≠ 0x4D42 := by
    rw [he]
    intro hc
    have h0 : d.getD 0 0 = 0x42 := by omega
    have h1 : d.getD 1 0 = 0x4D := by omega
    rcases hm with h | h
    · exact h h0
    · exact h h1
  have h16 : read16 ⟨d, 0⟩ = (fieldU16 d 0, (⟨d, 2⟩ : RFile)) := by
    rw [read16_spec d 0 (by omega) hb]
  set_option maxRecDepth 4000 in
  simp only [displayBMP, h16]
  rw [if_pos hne]

/-- C3 witness: the amended behaviour on the concrete bad-magic file. -/
theorem displayBMP_bad_magic_clean_witness :
    displayBMP (some [0, 0]) 0 0 = ⟨[], false, some 2⟩ :=
  displayBMP_bad_magic_clean [0, 0] 0 0 (by decide) (by decide)
    (Or.inl (by decide))

/-- C8: for every bitmap file whose bits-per-pixel field (byte offset 28)
is not 24 or whose compression field (byte offset 30) is nonzero, the
decoder aborts before emitting any pixel to the render sink, so the prior
frame remains unchanged on screen. -/
theorem displayBMP_unsupported_reject (d : List Nat) (x y : Nat)
    (hb : ∀ q ∈ d, q < 256) (hlen : 34 ≤ d.length)
    (hbad : fieldU16 d 28 ≠ 24 ∨ fieldU32 d 30 ≠ 0) :
    (displayBMP (some d) x y).drawn = [] := by
  have h16 : read16 ⟨d, 0⟩ = (fieldU16 d 0, (⟨d, 2⟩ : RFile)) := by
    rw [read16_spec d 0 (by omega) hb]
  simp only [displayBMP, h16]
  by_cases hmagic : fieldU16 d 0 ≠ 0x4D42
  · rw [if_pos hmagic]
  · rw [if_neg hmagic]
    have r1 : read32 ⟨d, 2⟩ = (fieldU32 d 2, (⟨d, 6⟩ : RFile)) := by
      rw [read32_spec d 2 (by omega) hb]
    have r2 : read32 ⟨d, 6⟩ = (fieldU32 d 6, (⟨d, 10⟩ : RFile)) := by
      rw [read32_spec d 6 (by omega) hb]
    have r3 : read32 ⟨d, 10⟩ = (fieldU32 d 10, (⟨d, 14⟩ : RFile)) := by
      rw [read32_spec d 10 (by omega) hb]
    have r4 : read32 ⟨d, 14⟩ = (fieldU32 d 14, (⟨d, 18⟩ : RFile)) := by
      rw [read32_spec d 14 (by omega) hb]
    have r5 : read32 ⟨d, 18⟩ = (fieldU32 d 18, (⟨d, 22⟩ : RFile)) := by
      rw [read32_spec d 18 (by omega) hb]
    have r6 : read32 ⟨d, 22⟩ = (fieldU32 d 22, (⟨d, 26⟩ : RFile)) := by
      rw [read32_spec d 22 (by omega) hb]
    have r7 : read16 ⟨d, 26⟩ = (fieldU16 d 26, (⟨d, 28⟩ : RFile)) := by
      rw [read16_spec d 26 (by omega) hb]
    have r8 : read16 ⟨d, 28⟩ = (fieldU16 d 28, (⟨d, 30⟩ : RFile)) := by
      rw [read16_spec d 28 (by omega) hb]
    have r9 : read32 ⟨d, 30⟩ = (fieldU32 d 30, (⟨d, 34⟩ : RFile)) := by
      rw [read32_spec d 30 (by omega) hb]
    simp only [displayBMPHeader, r1, r2, r3, r4, r5, r6, r7, r8, r9]
    by_cases hbpp : fieldU16 d 28 ≠ 24
    · rw [if_pos hbpp]
    · have hcomp : fieldU32 d 30 ≠ 0 := by tauto
      rw [if_neg hbpp, if_pos hcomp]

/-- C8 witness: a 34-byte file with a good magic and bits-per-pixel 0
draws nothing. -/
theorem displayBMP_unsupported_reject_witness :
    (displayBMP (some ([0x42, 0x4D] ++ List.replicate 32 0)) 0 0).drawn = [] :=
  displayBMP_unsupported_reject ([0x42, 0x4D] ++ List.replicate 32 0) 0 0
    (by decide) (by decide) (Or.inl (by decide))

/-- C4: evaluation of the decoder at a concrete well-formed bottom-up
4 x 4 bitmap.  Destination row 0 is correctly taken from stored row 3
(all bytes 40, colour 10565), but destination row 1 column 0 is emitted
with colour 0 taken from never-filled cache bytes: the code seeks to
stored row 2 (all bytes 30, which would decode to colour 6371) without
invalidating its 60-byte cache, so the stale cache index 12 is used
instead of fresh data.  Destination row r is therefore NOT decoded from
source row height-1-r, exposing the missing cache reset after seek. -/
theorem displayBMP_stale_cache_row :
    (displayBMP (some bmp4x4) 0 0).drawn.getD 0 (99, 99, 99) = (0, 0, color565 40 40 40) ∧
    (displayBMP (some bmp4x4) 0 0).drawn.getD 4 (99, 99, 99) = (0, 1, 0) ∧
    color565 30 30 30 = 6371 ∧
    (0 : Nat) ≠ 6371 := by
  set_option maxRecDepth 100000 in
  refine ⟨by decide, by decide, by decide, by decide⟩

/-- C6 counterexample: the stride is computed in int32 arithmetic, so for
the representable non-negative width 1431655765 the expression
bmpWidth * 3 + 3 overflows and the computed stride is 0, which is smaller
than 3 * w -- refuting the claim for every non-negative width. -/
theorem rowSize_overflow :
    rowSizeOf 1431655765 = 0 ∧ ¬(3 * 1431655765 ≤ rowSizeOf 1431655765) := by
  refine ⟨by decide, by decide⟩

/-- C6 amended: for every non-negative width w with 3 * w + 3 < 2 ^ 32
(no int32 overflow), the computed stride equals 4 * ((3 * w + 3) / 4),
which is the smallest multiple of 4 that is at least 3 * w; in particular
w = 5 gives 16 and w = 4 gives 12 (see the witness). -/
theorem rowSize_least_multiple (w : Nat) (h : 3 * w + 3 < 2 ^ 32) :
    rowSizeOf (w : Int) = 4 * ((3 * w + 3) / 4) ∧
    3 * w ≤ rowSizeOf (w : Int) ∧ 4 ∣ rowSizeOf (w : Int) ∧
    ∀ m : Nat, 4 ∣ m → 3 * w ≤ m → rowSizeOf (w : Int) ≤ m := by
  have h1 : ((w : Int) * 3 + 3) = ((3 * w + 3 : Nat) : Int) := by push_cast; ring
  have hval : rowSizeOf (w : Int) = (3 * w + 3) &&& 0xFFFFFFFC := by
    rw [rowSizeOf, h1, Int.emod_eq_of_lt (by positivity) (by exact_mod_cast h),
      Int.toNat_natCast]
  have hmask := land_mask32 (3 * w + 3) h
  have h4 : (2 : Nat) ^ 2 = 4 := by norm_num
  rw [h4] at hmask
  rw [hval, hmask]
  refine ⟨rfl, by omega, ⟨_, rfl⟩, ?_⟩
  intro m hm hle
  obtain ⟨q, rfl⟩ := hm
  omega

/-- C6 witness: the spec's two sample widths. -/
theorem rowSize_least_multiple_witness :
    rowSizeOf ((5 : Nat) : Int) = 16 ∧ rowSizeOf ((4 : Nat) : Int) = 12 := by
  have h5 := (rowSize_least_multiple 5 (by norm_num)).1
  have h4 := (rowSize_least_multiple 4 (by norm_num)).1
  norm_num at h5 h4
  exact ⟨h5, h4⟩

theorem playChunks_length_aux :
    ∀ (N : Nat) (c : List Nat), c.length ≤ N →
      (playChunks c).length = (c.length + 4095) / 4096 := by
  intro N
  induction N with
  | zero =>
    intro c hc
    have hnil : c = [] := List.eq_nil_of_length_eq_zero (by omega)
    subst hnil
    rw [playChunks.eq_def]
    simp
  | succ N ih =>
    intro c hc
    rw [playChunks.eq_def]
    by_cases hce : c.isEmpty
    · have hnil : c = [] := by simpa [List.isEmpty_iff] using hce
      subst hnil
      simp
    · rw [dif_neg hce]
      have hne : c ≠ [] := by simpa [List.isEmpty_iff] using hce
      have hp : 0 < c.length := List.length_pos.mpr hne
      simp only [List.length_cons]
      rw [ih (c.drop BUFFER_SIZE) (by simp only [List.length_drop, BUFFER_SIZE]; omega)]
      simp only [List.length_drop, BUFFER_SIZE]
      omega

theorem playChunks_length (c : List Nat) :
    (playChunks c).length = (c.length + 4095) / 4096 :=
  playChunks_length_aux c.length c le_rfl

/-- C5: each transmitted chunk of playSong is the byte range the i-th
read delivered, trimmed to the largest even length n - n % 2 (at most
one trailing odd byte dropped, never carried over), and the transmitted
byte count equals exactly that trimmed length. -/
theorem playSong_chunk_trim (c : List Nat) (i : Nat)
    (h : i < (playChunks c).length) :
    (playChunks c).getD i [] =
      ((c.drop (4096 * i)).take 4096).take
        (((c.drop (4096 * i)).take 4096).length -
          ((c.drop (4096 * i)).take 4096).length % 2) ∧
    ((playChunks c).getD i []).length =
      ((c.drop (4096 * i)).take 4096).length -
        ((c.drop (4096 * i)).take 4096).length % 2 ∧
    ((playChunks c).getD i []).length % 2 = 0 ∧
    ((c.drop (4096 * i)).take 4096).length - ((playChunks c).getD i []).length ≤ 1 := by
  induction i generalizing c with
  | zero =>
    rw [playChunks.eq_def] at h ⊢
    by_cases hce : c.isEmpty
    · rw [dif_pos hce] at h
      simp at h
    · rw [dif_neg hce] at h ⊢
      simp only [BUFFER_SIZE, List.getD_cons_zero, Nat.mul_zero, List.drop_zero]
      have hlen : ((c.take 4096).take
          ((c.take 4096).length - (c.take 4096).length % 2)).length =
          (c.take 4096).length - (c.take 4096).length % 2 := by
        rw [List.length_take]
        omega
      exact ⟨trivial, hlen, by omega, by omega⟩
  | succ i ih =>
    rw [playChunks.eq_def] at h ⊢
    by_cases hce : c.isEmpty
    · rw [dif_pos hce] at h
      simp at h
    · rw [dif_neg hce] at h ⊢
      simp only [List.getD_cons_succ, List.length_cons] at h ⊢
      have h2 : i < (playChunks (c.drop BUFFER_SIZE)).length := by omega
      have hd : (c.drop BUFFER_SIZE).drop (4096 * i) = c.drop (4096 * (i + 1)) := by
        rw [List.drop_drop]
        congr 1
        simp only [BUFFER_SIZE]
        ring
      have ihh := ih (c.drop BUFFER_SIZE) h2
      rw [hd] at ihh
      exact ihh

/-- C5 witness: the 3-byte file is read in one chunk and transmitted as
the 2-byte trimmed chunk [1, 2]. -/
theorem playSong_chunk_trim_witness :
    (playChunks [1, 2, 3]).getD 0 [] = [1, 2] ∧
    ((playChunks [1, 2, 3]).getD 0 []).length = 2 := by
  have h := playSong_chunk_trim [1, 2, 3] 0 (by simp [playChunks_length])
  refine ⟨?_, ?_⟩
  · rw [h.1]
    decide
  · rw [h.2.1]
    decide

/-- C7: playback failure and termination semantics.  If the file is
absent (SD.exists fails, or the open fails), playSong transmits nothing
and touches nothing (silent no-op).  Otherwise it performs exactly one
pass: ceil(length / 4096) reads, transmitting each trimmed chunk, then
terminates and closes the file. -/
theorem playSong_failure_termination (fs : String → Option (List Nat))
    (name : String) :
    (fs name = none → playSong fs name = ([], false)) ∧
    (∀ c, fs name = some c →
      playSong fs name = (playChunks c, true) ∧
      (playChunks c).length = (c.length + 4095) / 4096) := by
  constructor
  · intro h
    simp [playSong, h]
  · intro c h
    exact ⟨by simp [playSong, h], playChunks_length c⟩

/-- C7 witness: on the demo card, a missing song is a silent no-op and
the present 3-byte song is streamed in one closing pass. -/
theorem playSong_failure_termination_witness :
    playSong demoFS "/songs/song9.wav" = ([], false) ∧
    playSong demoFS "/songs/song1.wav" = (playChunks [1, 2, 3], true) ∧
    (playChunks [1, 2, 3]).length = 1 := by
  refine ⟨(playSong_failure_termination demoFS "/songs/song9.wav").1 (by rfl),
    ((playSong_failure_termination demoFS "/songs/song1.wav").2 [1, 2, 3] (by rfl)).1,
    ?_⟩
  have h := ((playSong_failure_termination demoFS "/songs/song1.wav").2
    [1, 2, 3] (by rfl)).2
  simpa using h

/-- C9: playlist cursor stepping.  Under the cursor range invariant, in
an iteration where the button reads active and the time since the last
accepted press exceeds the 50 ms debounce window, the cursor steps
backward by one modulo the playlist length ((c + 4) % 5) and the
accepted-press time is updated; an active press inside the window changes
nothing; and in every iteration where the button reads inactive the
cursor steps forward by one modulo the playlist length -- on every such
pass, not on a discrete event. -/
theorem loop_cursor_step (s : SchedState) (cm t2 : Nat)
    (h0 : 0 ≤ s.currentSong) (h5 : s.currentSong < 5) :
    (usub32 t2 s.lastButtonPressTime > 50 →
      (loopStep s cm true t2).currentSong = (s.currentSong + 4) % 5 ∧
      (loopStep s cm true t2).lastButtonPressTime = t2) ∧
    (¬ usub32 t2 s.lastButtonPressTime > 50 →
      (loopStep s cm true t2).currentSong = s.currentSong ∧
      (loopStep s cm true t2).lastButtonPressTime = s.lastButtonPressTime) ∧
    ((loopStep s cm false t2).currentSong = (s.currentSong + 1) % 5 ∧
      (loopStep s cm false t2).lastButtonPressTime = s.lastButtonPressTime) := by
  have e1 : Int.tmod (s.currentSong - 1 + totalSongs) totalSongs =
      (s.currentSong + 4) % 5 := by
    have hx : s.currentSong - 1 + totalSongs = s.currentSong + 4 := by
      simp only [totalSongs]; ring
    rw [hx, totalSongs, Int.tmod_eq_emod (by omega) (by norm_num)]
  have e2 : Int.tmod (s.currentSong + 1) totalSongs = (s.currentSong + 1) % 5 := by
    rw [totalSongs, Int.tmod_eq_emod (by omega) (by norm_num)]
  refine ⟨?_, ?_, ?_⟩
  · intro hd
    by_cases g1 : usub32 cm s.previousMillis ≥ 1000 <;>
      by_cases g2 : usub32 cm s.previousImageMillis ≥ 5000 <;>
        simp [loopStep, DEBOUNCE_DELAY, g1, g2, hd, e1]
  · intro hd
    by_cases g1 : usub32 cm s.previousMillis ≥ 1000 <;>
      by_cases g2 : usub32 cm s.previousImageMillis ≥ 5000 <;>
        simp [loopStep, DEBOUNCE_DELAY, g1, g2, hd]
  · by_cases g1 : usub32 cm s.previousMillis ≥ 1000 <;>
      by_cases g2 : usub32 cm s.previousImageMillis ≥ 5000 <;>
        simp [loopStep, DEBOUNCE_DELAY, g1, g2, e2]

/-- C9 witness: from the initial state, a debounced active press steps
the cursor backward to 4 and records the press time. -/
theorem loop_cursor_step_witness :
    (loopStep initialState 0 true 100).currentSong =
      (initialState.currentSong + 4) % 5 ∧
    (loopStep initialState 0 true 100).lastButtonPressTime = 100 :=
  (loop_cursor_step initialState 0 100 (by decide) (by decide)).1 (by decide)

/-- C10: cursor range invariant.  It holds in the initial state
(currentSong = 0, currentImage = 1) and every loop iteration preserves
0 ≤ currentSong < totalSongs = 5 and 1 ≤ currentImage ≤ totalImages = 4,
so the indices used to build file paths stay inside the enumerated
lists. -/
theorem loop_cursor_invariant :
    SchedInv initialState ∧
    ∀ (s : SchedState) (cm t2 : Nat) (b : Bool),
      SchedInv s → SchedInv (loopStep s cm b t2) := by
  constructor
  · simp [SchedInv, initialState]
  · intro s cm t2 b hs
    obtain ⟨h1, h2, h3, h4⟩ := hs
    have e1 : Int.tmod (s.currentSong - 1 + totalSongs) totalSongs =
        (s.currentSong + 4) % 5 := by
      have hx : s.currentSong - 1 + totalSongs = s.currentSong + 4 := by
        simp only [totalSongs]; ring
      rw [hx, totalSongs, Int.tmod_eq_emod (by omega) (by norm_num)]
    have e2 : Int.tmod (s.currentSong + 1) totalSongs = (s.currentSong + 1) % 5 := by
      rw [totalSongs, Int.tmod_eq_emod (by omega) (by norm_num)]
    cases b <;>
      by_cases g1 : usub32 cm s.previousMillis ≥ 1000 <;>
        by_cases g2 : usub32 cm s.previousImageMillis ≥ 5000 <;>
          by_cases g3 : usub32 t2 s.lastButtonPressTime > 50 <;>
            simp [loopStep, SchedInv, totalImages, DEBOUNCE_DELAY, g1, g2, g3,
              e1, e2] <;>
              omega

/-- C10 witness: the invariant holds after one concrete iteration from
the initial state. -/
theorem loop_cursor_invariant_witness :
    SchedInv initialState ∧ SchedInv (loopStep initialState 0 true 100) :=
  ⟨loop_cursor_invariant.1,
    loop_cursor_invariant.2 initialState 0 100 true loop_cursor_invariant.1⟩
